import Mathlib

/-!
Shallow embedding of src/generate_feed.py: an RSS feed generator that
collects markdown blog posts from a directory, resolves each file's first
git commit date, extracts a title and a description with regular
expression heuristics, sorts the records newest first and renders an
RSS 2.0 document.  Python strings are modelled as Lean strings, with the
character-level algorithms spelled out on List Char so that everything
is executable and kernel-reducible.
-/

/-- Python whitespace characters: the set str.strip removes and the
regular expression class backslash-s matches on ASCII input. -/
def pyIsSpace (c : Char) : Bool :=
  c = ' ' || c = '\t' || c = '\n' || c = '\r' || c = '\x0b' || c = '\x0c'

/-- Python str.strip(): drop leading and trailing whitespace. -/
def pyStripL (l : List Char) : List Char :=
  ((l.dropWhile pyIsSpace).reverse.dropWhile pyIsSpace).reverse

/-- Python str.split(sep) for a one-character separator: always returns at
least one (possibly empty) piece, with no piece containing the separator. -/
def pySplit : List Char → Char → List (List Char)
  | [], _ => [[]]
  | c :: cs, sep =>
    match pySplit cs sep with
    | [] => [[c]]
    | h :: t => if c = sep then [] :: h :: t else (c :: h) :: t

/-- Lexicographic comparison of code point sequences: Python str `<`,
used by list.sort through the string sort key. -/
def pyStrLt : List Char → List Char → Bool
  | _, [] => false
  | [], _ :: _ => true
  | a :: as, b :: bs => if a < b then true else if b < a then false else pyStrLt as bs

/-- The non-strict companion of pyStrLt. -/
def pyStrLe (a b : List Char) : Bool := !(pyStrLt b a)

/-- Boolean list prefix test, used by the substring and replace models. -/
def isPre : List Char → List Char → Bool
  | [], _ => true
  | _ :: _, [] => false
  | a :: as, b :: bs => a == b && isPre as bs

/-- Whether a pattern occurs anywhere in a character list (re.search hit). -/
def occursIn (pat : List Char) : List Char → Bool
  | [] => isPre pat []
  | c :: cs => isPre pat (c :: cs) || occursIn pat cs

/-- xml.sax.saxutils.escape on one character.  The library performs three
sequential single-character global replacements, ampersand first, then
greater-than, then less-than; because the replacement texts never contain
a character replaced by a later pass, the composition equals this single
left-to-right pass. -/
def escape1 (c : Char) : List Char :=
  if c = '&' then ['&', 'a', 'm', 'p', ';']
  else if c = '>' then ['&', 'g', 't', ';']
  else if c = '<' then ['&', 'l', 't', ';']
  else [c]

/-- Character-list form of xml.sax.saxutils.escape. -/
def escapeL : List Char → List Char
  | [] => []
  | c :: cs => escape1 c ++ escapeL cs

/-- xml.sax.saxutils.escape as applied to titles and descriptions. -/
def escapeS (s : String) : String := String.mk (escapeL s.data)

/-- Python str.replace for a non-empty pattern, given as head and tail:
leftmost, non-overlapping replacement in one pass over the source. -/
def pyReplace (p : Char) (ps rep : List Char) : List Char → List Char
  | [] => []
  | c :: cs =>
    if isPre (p :: ps) (c :: cs) then rep ++ pyReplace p ps rep (cs.drop ps.length)
    else c :: pyReplace p ps rep cs
termination_by l => l.length
decreasing_by
  · simp only [List.length_cons, List.length_drop]
    omega
  · simp

/-- xml.sax.saxutils.unescape restricted to the three standard entities,
in the library's order: the lt entity, the gt entity, then amp last. -/
def unescapeS (s : String) : String :=
  String.mk (pyReplace '&' ['a', 'm', 'p', ';'] ['&']
    (pyReplace '&' ['g', 't', ';'] ['>']
      (pyReplace '&' ['l', 't', ';'] ['<'] s.data)))

/-- Decimal digit value of a character, or none. -/
def digitVal (c : Char) : Option Nat :=
  if '0' ≤ c && c ≤ '9' then some (c.toNat - 48) else none

/-- Digit character for a value below ten. -/
def digitChar10 : Nat → Char
  | 0 => '0' | 1 => '1' | 2 => '2' | 3 => '3' | 4 => '4'
  | 5 => '5' | 6 => '6' | 7 => '7' | 8 => '8' | _ => '9'

/-- strftime zero padding for the two-digit datetime fields. -/
def pad2 (n : Nat) : List Char := [digitChar10 (n / 10), digitChar10 (n % 10)]

/-- strftime year field for the four-digit years datetime guarantees. -/
def pad4 (n : Nat) : List Char :=
  [digitChar10 (n / 1000), digitChar10 (n / 100 % 10), digitChar10 (n / 10 % 10),
    digitChar10 (n % 10)]

/-- Exactly four digits, the strptime year directive. -/
def parse4 : List Char → Option (Nat × List Char)
  | a :: b :: c :: d :: rest =>
    match digitVal a, digitVal b, digitVal c, digitVal d with
    | some w, some x, some y, some z => some (w * 1000 + x * 100 + y * 10 + z, rest)
    | _, _, _, _ => none
  | _ => none

/-- One or two digits, greedy: the strptime month, day, hour, minute and
second directives accept either. -/
def parse2or1 : List Char → Option (Nat × List Char)
  | a :: b :: rest =>
    match digitVal a, digitVal b with
    | some x, some y => some (x * 10 + y, rest)
    | some x, none => some (x, b :: rest)
    | none, _ => none
  | [a] =>
    match digitVal a with
    | some x => some (x, [])
    | none => none
  | [] => none

/-- Exactly two digits, used inside the utc offset directive. -/
def parse2exact : List Char → Option (Nat × List Char)
  | a :: b :: rest =>
    match digitVal a, digitVal b with
    | some x, some y => some (x * 10 + y, rest)
    | _, _ => none
  | _ => none

/-- A literal character of the strptime format. -/
def expectChar (c : Char) : List Char → Option (List Char)
  | d :: rest => if d = c then some rest else none
  | [] => none

/-- One or more whitespace characters: a literal blank inside a strptime
format is compiled to backslash-s-plus. -/
def skipWs1 : List Char → Option (List Char)
  | c :: rest => if pyIsSpace c then some (rest.dropWhile pyIsSpace) else none
  | [] => none

/-- Tail of the strptime utc offset directive after sign, hours and
minutes: an optional colon-or-not two-digit seconds field.  Fractional
offset seconds are not modelled; no input of this repository carries
them. -/
def parseOffTail (neg : Bool) (hh mm : Nat) (l : List Char) :
    Option ((Bool × Nat × Nat × Nat) × List Char) :=
  let l1 := match l with | ':' :: r => r | _ => l
  match parse2exact l1 with
  | some (ss, rest) => some ((neg, hh, mm, ss), rest)
  | none => some ((neg, hh, mm, 0), l)

/-- The strptime utc offset directive: a sign, two-digit hours, an
optional colon, required two-digit minutes, optional seconds, or a
literal Z denoting utc. -/
def parseOffset : List Char → Option ((Bool × Nat × Nat × Nat) × List Char)
  | [] => none
  | c :: rest =>
    if c = 'Z' then some ((false, 0, 0, 0), rest)
    else if c = '+' || c = '-' then
      match parse2exact rest with
      | some (hh, l1) =>
        let l2 := match l1 with | ':' :: r => r | _ => l1
        match parse2exact l2 with
        | some (mm, l3) => parseOffTail (c = '-') hh mm l3
        | none => none
      | none => none
    else none

/-- An aware datetime as strptime produces it from a git author date. -/
structure GitDate where
  year : Nat
  month : Nat
  day : Nat
  hour : Nat
  minute : Nat
  second : Nat
  tzNeg : Bool
  tzh : Nat
  tzm : Nat
  tzs : Nat
deriving DecidableEq

/-- Gregorian leap year rule. -/
def isLeap (y : Nat) : Bool := (y % 4 == 0 && y % 100 != 0) || y % 400 == 0

/-- Days in a month of the proleptic Gregorian calendar. -/
def daysInMonth (y m : Nat) : Nat :=
  match m with
  | 2 => if isLeap y then 29 else 28
  | 4 => 30 | 6 => 30 | 9 => 30 | 11 => 30
  | _ => 31

/-- Days in the year strictly before the first of the given month. -/
def daysBeforeMonth (y m : Nat) : Nat :=
  let L := if isLeap y then 1 else 0
  match m with
  | 1 => 0 | 2 => 31 | 3 => 59 + L | 4 => 90 + L | 5 => 120 + L | 6 => 151 + L
  | 7 => 181 + L | 8 => 212 + L | 9 => 243 + L | 10 => 273 + L | 11 => 304 + L
  | _ => 334 + L

/-- date.toordinal of the proleptic Gregorian calendar: ordinal one is
January first of year one, a Monday. -/
def toOrdinal (y m d : Nat) : Nat :=
  365 * (y - 1) + (y - 1) / 4 + (y - 1) / 400 - (y - 1) / 100 + daysBeforeMonth y m + d

/-- date.weekday: zero is Monday. -/
def weekdayOf (y m d : Nat) : Nat := (toOrdinal y m d + 6) % 7

/-- strftime day-of-week abbreviations in weekday order. -/
def dayAbbrev : Nat → List Char
  | 0 => ['M', 'o', 'n'] | 1 => ['T', 'u', 'e'] | 2 => ['W', 'e', 'd']
  | 3 => ['T', 'h', 'u'] | 4 => ['F', 'r', 'i'] | 5 => ['S', 'a', 't']
  | _ => ['S', 'u', 'n']

/-- strftime month abbreviations. -/
def monthAbbrev : Nat → List Char
  | 1 => ['J', 'a', 'n'] | 2 => ['F', 'e', 'b'] | 3 => ['M', 'a', 'r']
  | 4 => ['A', 'p', 'r'] | 5 => ['M', 'a', 'y'] | 6 => ['J', 'u', 'n']
  | 7 => ['J', 'u', 'l'] | 8 => ['A', 'u', 'g'] | 9 => ['S', 'e', 'p']
  | 10 => ['O', 'c', 't'] | 11 => ['N', 'o', 'v'] | _ => ['D', 'e', 'c']

/-- The RFC822 output format of the source: day-of-week abbreviation,
comma, day, month abbreviation, year, time, and the utc offset, whose
sign is positive when the offset is zero. -/
def toRFC822 (g : GitDate) : List Char :=
  let off := g.tzh * 3600 + g.tzm * 60 + g.tzs
  let sign := if g.tzNeg && off != 0 then '-' else '+'
  dayAbbrev (weekdayOf g.year g.month g.day) ++ [',', ' '] ++ pad2 g.day ++ [' '] ++
    monthAbbrev g.month ++ [' '] ++ pad4 g.year ++ [' '] ++ pad2 g.hour ++ [':'] ++
    pad2 g.minute ++ [':'] ++ pad2 g.second ++ [' '] ++
    sign :: (pad2 g.tzh ++ pad2 g.tzm ++ (if g.tzs = 0 then [] else pad2 g.tzs))

/-- Field ranges the strptime digit directives and the datetime and
timezone constructors enforce together; a value outside them means the
ValueError branch, hence none. -/
def validGitDate (y mo d h mi s zh zm zs : Nat) : Bool :=
  1 ≤ y && y ≤ 9999 && 1 ≤ mo && mo ≤ 12 && 1 ≤ d && d ≤ daysInMonth y mo &&
    h ≤ 23 && mi ≤ 59 && s ≤ 59 && zh ≤ 23 && zm ≤ 59 && zs ≤ 59

/-- datetime.strptime against "%Y-%m-%d %H:%M:%S %z".  The whole input
must be consumed; any failure is none, mirroring the except ValueError
branch of format_rfc822_date. -/
def parseGitDate (l0 : List Char) : Option GitDate :=
  match parse4 l0 with
  | none => none
  | some (y, l1) =>
  match expectChar '-' l1 with
  | none => none
  | some l2 =>
  match parse2or1 l2 with
  | none => none
  | some (mo, l3) =>
  match expectChar '-' l3 with
  | none => none
  | some l4 =>
  match parse2or1 l4 with
  | none => none
  | some (d, l5) =>
  match skipWs1 l5 with
  | none => none
  | some l6 =>
  match parse2or1 l6 with
  | none => none
  | some (h, l7) =>
  match expectChar ':' l7 with
  | none => none
  | some l8 =>
  match parse2or1 l8 with
  | none => none
  | some (mi, l9) =>
  match expectChar ':' l9 with
  | none => none
  | some l10 =>
  match parse2or1 l10 with
  | none => none
  | some (s, l11) =>
  match skipWs1 l11 with
  | none => none
  | some l12 =>
  match parseOffset l12 with
  | none => none
  | some ((neg, zh, zm, zs), l13) =>
  if l13 = [] && validGitDate y mo d h mi s zh zm zs then
    some ⟨y, mo, d, h, mi, s, neg, zh, zm, zs⟩
  else none

/-- format_rfc822_date on character lists: an empty string is falsy and
yields none; otherwise parse and reformat, none on parse failure. -/
def format_rfc822L (l : List Char) : Option (List Char) :=
  if l = [] then none else (parseGitDate l).map toRFC822

/-- format_rfc822_date of the source. -/
def format_rfc822_date (s : String) : Option String :=
  (format_rfc822L s.data).map String.mk

/-- The wall clock reading datetime.now() returns: a naive datetime. -/
structure NaiveNow where
  year : Nat
  month : Nat
  day : Nat
  hour : Nat
  minute : Nat
  second : Nat
deriving DecidableEq

/-- datetime.now().strftime against "%Y-%m-%d %H:%M:%S %z": a naive
datetime has no utc offset, so the offset directive yields the empty
string and the result ends in the blank that precedes it. -/
def nowString (t : NaiveNow) : List Char :=
  pad4 t.year ++ ('-' :: (pad2 t.month ++ ('-' :: (pad2 t.day ++ (' ' :: (pad2 t.hour ++
    (':' :: (pad2 t.minute ++ (':' :: (pad2 t.second ++ [' ']))))))))))

/-- Continuation of the title pattern (hash, whitespace run, text up to
a line end) after the hash: at least one whitespace character, where the
run may cross line breaks; if a non-whitespace character follows the run
the capture goes to the end of that line and is stripped; a remainder of
whitespace still matches when it has a non-newline character past the
first position, with a capture stripping to nothing. -/
def titleMatchAt (rest : List Char) : Option (List Char) :=
  match rest with
  | [] => none
  | c :: cs =>
    if pyIsSpace c then
      match rest.dropWhile pyIsSpace with
      | d :: ds => some (pyStripL ((d :: ds).takeWhile fun x => x != '\n'))
      | [] => if cs.any fun d => d != '\n' then some [] else none
    else none

/-- re.search for the title pattern with the multiline flag: attempt the
match at every line start, leftmost hit wins. -/
def findTitleAux : Bool → List Char → Option (List Char)
  | _, [] => none
  | atStart, c :: cs =>
    match (if atStart && c = '#' then titleMatchAt cs else none) with
    | some g => some g
    | none => findTitleAux (c == '\n') cs

/-- The title search over a whole document. -/
def findTitleC (l : List Char) : Option (List Char) := findTitleAux true l

/-- The literal the goal pattern starts with. -/
def goalLit : List Char := ['*', '*', 'G', 'o', 'a', 'l', ':', '*', '*']

/-- Continuation of the goal pattern after its literal: skip whitespace
greedily (possibly across line breaks); if a non-whitespace character
remains, the lazy capture runs to the end of that line and is stripped;
a remainder of whitespace that still holds a non-newline character
matches with a capture that strips to nothing; an all-newline remainder
fails the match. -/
def goalMatchAt (rest : List Char) : Option (List Char) :=
  match rest.dropWhile pyIsSpace with
  | c :: cs => some (pyStripL ((c :: cs).takeWhile fun d => d != '\n'))
  | [] => if rest.any fun d => d != '\n' then some [] else none

/-- re.search for the goal pattern: the leftmost occurrence of the
literal whose continuation matches.  When a continuation fails, the
remainder is entirely newlines, so no later occurrence can exist. -/
def findGoal : List Char → Option (List Char)
  | [] => none
  | c :: cs => if isPre goalLit (c :: cs) then goalMatchAt (cs.drop 8) else findGoal cs

/-- First line of the paragraph pattern: an uppercase ASCII letter
followed by at least one further character on the same line. -/
def paraStart (l : List Char) : Bool :=
  match l with
  | c :: _ :: _ => 'A' ≤ c && c ≤ 'Z'
  | _ => false

/-- Rejoin lines with the newline the pattern consumed between them. -/
def joinNLlines : List (List Char) → List Char
  | [] => []
  | [l] => l
  | l :: ls => l ++ '\n' :: joinNLlines ls

/-- First match of the paragraph pattern: the first qualifying line
together with the maximal run of following non-empty lines. -/
def firstParagraph : List (List Char) → Option (List Char)
  | [] => none
  | l :: ls =>
    if paraStart l then some (joinNLlines (l :: ls.takeWhile fun s => s != []))
    else firstParagraph ls

/-- The synthesized fallback description of the source. -/
def readMoreText (title : List Char) : List Char :=
  "Read the full article: ".data ++ title

/-- Description selection of extract_title_and_description: the goal
capture when the goal pattern matches, else the first paragraph stripped
and cut to 200 characters; when the outcome is missing or empty, the
falsiness guard of the source substitutes the read-more fallback. -/
def descriptionOf (cl : List Char) (lines : List (List Char)) (title : String) : String :=
  match findGoal cl with
  | some g => if g = [] then String.mk (readMoreText title.data) else String.mk g
  | none =>
    match firstParagraph lines with
    | some par =>
      let d := (pyStripL par).take 200
      if d = [] then String.mk (readMoreText title.data) else String.mk d
    | none => String.mk (readMoreText title.data)

/-- extract_title_and_description.  The Option content is none when the
file read raises an I/O or decode error; the source then logs and
returns the filename stem paired with an empty description.  On a
successful read: title is the stripped capture of the title pattern or
the stem, and the description is chosen as in descriptionOf. -/
def extract_title_and_description (content : Option String) (stem : String) :
    String × String :=
  match content with
  | none => (stem, "")
  | some text =>
    let cl := text.data
    let title := match findTitleC cl with
      | some t => String.mk t
      | none => stem
    (title, descriptionOf cl (pySplit cl '\n') title)

/-- Outcome of the subprocess.run git log invocation. -/
inductive RunResult where
  | ok (stdout : String)
  | calledProcessError
  | fileNotFound
deriving DecidableEq

/-- get_git_date: runs git log asking for author dates oldest first with
check=True.  Only CalledProcessError is caught and turned into none; a
missing git binary raises FileNotFoundError through to the caller,
modelled as the error branch.  An empty result set yields none. -/
def get_git_date : RunResult → Except String (Option String)
  | .ok out =>
    match pySplit (pyStripL out.data) '\n' with
    | [] => .ok none
    | d :: _ => if d = [] then .ok none else .ok (some (String.mk d))
  | .calledProcessError => .ok none
  | .fileNotFound => .error "FileNotFoundError"

/-- One collected record of find_blog_posts. -/
structure BlogPost where
  path : String
  rel_path : String
  title : String
  description : String
  date : Option String
deriving DecidableEq

/-- One markdown file of the blogs directory as the traversal sees it:
its path (relative paths are unchanged by the relative_to call of the
source), filename stem, readable content or a read error, and the git
subprocess outcome. -/
structure FsEntry where
  path : String
  stem : String
  content : Option String
  gitRun : RunResult
deriving DecidableEq

/-- Assemble the record dictionary of the collection loop. -/
def mkPost (e : FsEntry) (d : Option String) : BlogPost :=
  { path := e.path, rel_path := e.path,
    title := (extract_title_and_description e.content e.stem).1,
    description := (extract_title_and_description e.content e.stem).2,
    date := d }

/-- The date get_git_date delivers when it does not raise. -/
def gitInterp (r : RunResult) : Option String :=
  match get_git_date r with
  | .ok d => d
  | .error _ => none

/-- One iteration of the collection loop: a raised exception propagates. -/
def toPost (e : FsEntry) : Except String BlogPost :=
  (get_git_date e.gitRun).map (mkPost e)

/-- The collection loop over the traversal order. -/
def collectPosts : List FsEntry → Except String (List BlogPost)
  | [] => .ok []
  | e :: es =>
    match toPost e with
    | .error msg => .error msg
    | .ok p =>
      match collectPosts es with
      | .error msg => .error msg
      | .ok ps => .ok (p :: ps)

/-- The sort key of the source: the date string, or empty when the date
is falsy (absent or empty). -/
def keyL (p : BlogPost) : List Char :=
  match p.date with
  | none => []
  | some s => s.data

/-- Descending order by sort key. -/
def descKey (a b : BlogPost) : Prop := pyStrLe (keyL b) (keyL a) = true

/-- list.sort(key=..., reverse=True) is a stable descending sort; each
element is inserted before the first already placed element whose key is
not strictly greater, which realises exactly that order. -/
def insertPost (p : BlogPost) : List BlogPost → List BlogPost
  | [] => [p]
  | q :: qs => if pyStrLe (keyL q) (keyL p) then p :: q :: qs else q :: insertPost p qs

/-- The stable descending sort of the collector. -/
def sortPosts : List BlogPost → List BlogPost
  | [] => []
  | p :: ps => insertPost p (sortPosts ps)

/-- find_blog_posts: an absent blogs directory yields the empty list;
otherwise collect one record per markdown file in traversal order and
sort descending by date key. -/
def find_blog_posts (dirExists : Bool) (entries : List FsEntry) :
    Except String (List BlogPost) :=
  if dirExists then (collectPosts entries).map sortPosts else .ok []

/-- Static channel configuration of the source. -/
def RSS_title : String := "Nipuna Perera - Blog"

/-- The configured public link. -/
def RSS_link : String := "https://github.com/nipunap/nipunap"

/-- The configured channel description. -/
def RSS_description : String := "Senior Staff Database Reliability Engineer specializing in managing complex database environments, ensuring high availability and performance at scale."

/-- The configured language code. -/
def RSS_language : String := "en-us"

/-- The configured contact email. -/
def RSS_email : String := "nipunap@gmail.com"

/-- The configured author display name. -/
def RSS_author : String := "Nipuna Perera"

/-- The canonical public URL of a post. -/
def github_url (rel : String) : String := RSS_link ++ "/blob/main/" ++ rel

/-- One item block of the feed, exactly as the f-string renders it. -/
def item_xml (p : BlogPost) (pub : String) : String :=
  "    <item>\n      <title>" ++ escapeS p.title ++ "</title>\n      <link>" ++
    github_url p.rel_path ++ "</link>\n      <description>" ++ escapeS p.description ++
    "</description>\n      <author>" ++ RSS_email ++ " (" ++ RSS_author ++
    ")</author>\n      <pubDate>" ++ pub ++ "</pubDate>\n      <guid isPermaLink=\"true\">" ++
    github_url p.rel_path ++ "</guid>\n    </item>"

/-- One loop step of generate_rss_feed: a record whose date is absent, or
empty, or rejected by the formatter contributes nothing and is skipped. -/
def itemOf (p : BlogPost) : Option String :=
  match p.date with
  | none => none
  | some d =>
    match format_rfc822_date d with
    | none => none
    | some pub => if pub = "" then none else some (item_xml p pub)

/-- The rendered item blocks in list order. -/
def rssItems (posts : List BlogPost) : List String := posts.filterMap itemOf

/-- The last build date of generate_rss_feed: the first record's date
when the list is non-empty and that date is truthy, else the formatted
wall clock reading. -/
def last_build_date (posts : List BlogPost) (now : NaiveNow) : Option String :=
  match posts with
  | [] => format_rfc822_date (String.mk (nowString now))
  | p :: _ =>
    match p.date with
    | some d =>
      if d = "" then format_rfc822_date (String.mk (nowString now))
      else format_rfc822_date d
    | none => format_rfc822_date (String.mk (nowString now))

/-- Python str() as an f-string applies it to an Optional value. -/
def pyStrOfOpt : Option String → String
  | none => "None"
  | some s => s

/-- chr(10).join. -/
def joinNL : List String → String
  | [] => ""
  | [s] => s
  | s :: rest => s ++ "\n" ++ joinNL rest

/-- The full feed document of generate_rss_feed. -/
def rss_xml (posts : List BlogPost) (now : NaiveNow) : String :=
  "<?xml version=\"1.0\" encoding=\"UTF-8\"?>\n<rss version=\"2.0\" xmlns:atom=\"http://www.w3.org/2005/Atom\">\n  <channel>\n    <title>" ++
    escapeS RSS_title ++ "</title>\n    <link>" ++ RSS_link ++ "</link>\n    <description>" ++
    escapeS RSS_description ++ "</description>\n    <language>" ++ RSS_language ++
    "</language>\n    <managingEditor>" ++ RSS_email ++ " (" ++ RSS_author ++
    ")</managingEditor>\n    <webMaster>" ++ RSS_email ++ " (" ++ RSS_author ++
    ")</webMaster>\n    <lastBuildDate>" ++ pyStrOfOpt (last_build_date posts now) ++
    "</lastBuildDate>\n    <atom:link href=\"" ++ RSS_link ++ "/feed.xml\" rel=\"self\" type=\"application/rss+xml\"/>\n" ++
    joinNL (rssItems posts) ++ "\n  </channel>\n</rss>"

deriving instance DecidableEq for Except

set_option maxRecDepth 8192

/-- The markdown file of the concrete scenario claim. -/
def c8entry : FsEntry :=
  { path := "blogs/a.md", stem := "a",
    content := some "# Hello World\n\n**Goal:** Learn things.\n",
    gitRun := RunResult.ok "2025-01-02 10:00:00 +0000\n" }

/-- The record the scenario is expected to collect. -/
def c8post : BlogPost :=
  { path := "blogs/a.md", rel_path := "blogs/a.md", title := "Hello World",
    description := "Learn things.", date := some "2025-01-02 10:00:00 +0000" }

/-- Concatenation of per-character blocks, the shape of escape output. -/
def mapBlocks (f : Char → List Char) : List Char → List Char
  | [] => []
  | c :: cs => f c ++ mapBlocks f cs

/-- Escape blocks after the lt-entity pass of unescape. -/
def unesc1Blk (c : Char) : List Char :=
  if c = '&' then ['&', 'a', 'm', 'p', ';']
  else if c = '>' then ['&', 'g', 't', ';']
  else if c = '<' then ['<']
  else [c]

/-- Escape blocks after the gt-entity pass of unescape. -/
def unesc2Blk (c : Char) : List Char :=
  if c = '&' then ['&', 'a', 'm', 'p', ';']
  else if c = '>' then ['>']
  else if c = '<' then ['<']
  else [c]

lemma string_mk_data (s : String) : String.mk s.data = s := rfl

lemma string_mk_ne_empty {l : List Char} (h : l ≠ []) : String.mk l ≠ "" := by
  intro hc
  exact h (congrArg String.data hc)

/-- C8: a directory with one file a.md holding a heading and a goal line,
whose history resolves to 2025-01-02 10:00:00 +0000, collects exactly one
record titled Hello World with description Learn things., and renders one
item whose publish date is Thu, 02 Jan 2025 10:00:00 +0000. -/
theorem c8_single_post_scenario :
    find_blog_posts true [c8entry] = Except.ok [c8post]
    ∧ c8post.title = "Hello World"
    ∧ c8post.description = "Learn things."
    ∧ format_rfc822_date "2025-01-02 10:00:00 +0000"
        = some "Thu, 02 Jan 2025 10:00:00 +0000"
    ∧ rssItems [c8post] = [item_xml c8post "Thu, 02 Jan 2025 10:00:00 +0000"] := by
  refine ⟨by decide, rfl, rfl, by decide, by decide⟩

lemma readMore_ne_empty (t : List Char) : String.mk (readMoreText t) ≠ "" := by
  apply string_mk_ne_empty
  simp [readMoreText]

/-- C2 counterexample: when the git binary is missing, the subprocess
call raises FileNotFoundError, which the except clause for
CalledProcessError does not catch, so the exception escapes the
resolver instead of an absent result. -/
theorem c2_tool_unavailable_raises :
    get_git_date RunResult.fileNotFound = Except.error "FileNotFoundError" := rfl

/-- C2 amended: the resolver returns without raising for a successful
subprocess and for a non-zero exit status (CalledProcessError is
caught); a non-zero exit and an empty result set both yield an absent
date; but a missing tool binary is not covered. -/
theorem c2_absent_amended (r : RunResult) (h : r ≠ RunResult.fileNotFound) :
    (∃ d, get_git_date r = Except.ok d)
    ∧ get_git_date RunResult.calledProcessError = Except.ok none
    ∧ ∀ out : String, pyStripL out.data = [] →
        get_git_date (RunResult.ok out) = Except.ok none := by
  refine ⟨?_, rfl, ?_⟩
  · cases r with
    | ok out =>
      cases hs : pySplit (pyStripL out.data) '\n' with
      | nil => exact ⟨none, by simp [get_git_date, hs]⟩
      | cons a t =>
        by_cases ha : a = []
        · exact ⟨none, by simp [get_git_date, hs, ha]⟩
        · exact ⟨some (String.mk a), by simp [get_git_date, hs, ha]⟩
    | calledProcessError => exact ⟨none, rfl⟩
    | fileNotFound => exact absurd rfl h
  · intro out hout
    simp [get_git_date, hout, pySplit]

theorem c2_absent_amended_witness :
    (RunResult.calledProcessError ≠ RunResult.fileNotFound)
    ∧ (∃ d, get_git_date RunResult.calledProcessError = Except.ok d) :=
  ⟨by decide, (c2_absent_amended RunResult.calledProcessError (by decide)).1⟩

/-- C3 counterexample: a document whose read fails yields an empty
description, contradicting that the description is always non-empty. -/
theorem c3_read_failure_empty_description :
    extract_title_and_description none "post" = ("post", "") := rfl

/-- C3 amended: on a successful read the description is never empty (the
falsiness guard substitutes the read-more fallback); on a read failure
the extractor returns the filename stem with an empty description. -/
theorem c3_description_populated (content stem : String) :
    (extract_title_and_description (some content) stem).2 ≠ ""
    ∧ extract_title_and_description none stem = (stem, "") := by
  refine ⟨?_, rfl⟩
  show descriptionOf content.data (pySplit content.data '\n') _ ≠ ""
  generalize (match findTitleC content.data with
    | some t => String.mk t
    | none => stem) = title
  unfold descriptionOf
  cases hg : findGoal content.data with
  | some g =>
    by_cases hge : g = []
    · simp [hge]
      exact readMore_ne_empty _
    · simp [hge]
      exact string_mk_ne_empty hge
  | none =>
    cases hp : firstParagraph (pySplit content.data '\n') with
    | some par =>
      by_cases hd : (pyStripL par).take 200 = []
      · simp [hd]
        exact readMore_ne_empty _
      · simp [hd]
        exact string_mk_ne_empty hd
    | none => exact readMore_ne_empty _

lemma digitVal_digitChar10 {d : Nat} (h : d ≤ 9) : digitVal (digitChar10 d) = some d := by
  interval_cases d <;> decide

lemma digitChar10_not_space {d : Nat} (h : d ≤ 9) : pyIsSpace (digitChar10 d) = false := by
  interval_cases d <;> decide

lemma parse2or1_pad2 {n : Nat} (h : n ≤ 99) (rest : List Char) :
    parse2or1 (pad2 n ++ rest) = some (n, rest) := by
  have h1 : n / 10 ≤ 9 := by omega
  have h2 : n % 10 ≤ 9 := by omega
  simp [pad2, parse2or1, digitVal_digitChar10 h1, digitVal_digitChar10 h2]
  omega

lemma parse4_pad4 {n : Nat} (h : n ≤ 9999) (rest : List Char) :
    parse4 (pad4 n ++ rest) = some (n, rest) := by
  have h1 : n / 1000 ≤ 9 := by omega
  have h2 : n / 100 % 10 ≤ 9 := by omega
  have h3 : n / 10 % 10 ≤ 9 := by omega
  have h4 : n % 10 ≤ 9 := by omega
  simp [pad4, parse4, digitVal_digitChar10 h1, digitVal_digitChar10 h2,
    digitVal_digitChar10 h3, digitVal_digitChar10 h4]
  omega

lemma expectChar_cons (c : Char) (rest : List Char) : expectChar c (c :: rest) = some rest := by
  simp [expectChar]

lemma skipWs1_space (l : List Char) : skipWs1 (' ' :: l) = some (l.dropWhile pyIsSpace) := by
  simp [skipWs1, pyIsSpace]

lemma dropWhile_pad2 {n : Nat} (h : n ≤ 99) (rest : List Char) :
    (pad2 n ++ rest).dropWhile pyIsSpace = pad2 n ++ rest := by
  have h1 : n / 10 ≤ 9 := by omega
  simp [pad2, List.dropWhile_cons, digitChar10_not_space h1]

/-- The wall clock string of the source never parses back: the offset
directive finds end of input where the naive datetime left nothing. -/
lemma parseGitDate_nowString (t : NaiveNow) (h1 : t.year ≤ 9999) (h2 : t.month ≤ 99)
    (h3 : t.day ≤ 99) (h4 : t.hour ≤ 99) (h5 : t.minute ≤ 99) (h6 : t.second ≤ 99) :
    parseGitDate (nowString t) = none := by
  simp only [nowString, parseGitDate, parse4_pad4 h1, expectChar_cons,
    parse2or1_pad2 h2, parse2or1_pad2 h3, parse2or1_pad2 h4, parse2or1_pad2 h5,
    parse2or1_pad2 h6, skipWs1_space, dropWhile_pad2 h4, dropWhile_pad2 h5,
    dropWhile_pad2 h6, List.dropWhile_nil, parseOffset]

/-- C1, code bug: for an empty (or nonexistent, hence empty) record
list the renderer formats the naive wall clock string, whose re-parse
fails for lack of an offset, so lastBuildDate is the absent marker and
the document renders the text None there, while the item list is indeed
empty.  The hypotheses state datetime field bounds (each true of every
real clock reading). -/
theorem c1_empty_feed_lastBuildDate (now : NaiveNow) (entries : List FsEntry)
    (h1 : now.year ≤ 9999) (h2 : now.month ≤ 99) (h3 : now.day ≤ 99)
    (h4 : now.hour ≤ 99) (h5 : now.minute ≤ 99) (h6 : now.second ≤ 99) :
    last_build_date [] now = none
    ∧ pyStrOfOpt (last_build_date [] now) = "None"
    ∧ rssItems ([] : List BlogPost) = []
    ∧ find_blog_posts false entries = Except.ok [] := by
  have hp : last_build_date [] now = none := by
    show format_rfc822_date (String.mk (nowString now)) = none
    have hne : nowString now ≠ [] := by
      simp [nowString, pad4]
    simp [format_rfc822_date, format_rfc822L, hne,
      parseGitDate_nowString now h1 h2 h3 h4 h5 h6]
  exact ⟨hp, by rw [hp]; rfl, rfl, rfl⟩

theorem c1_empty_feed_lastBuildDate_witness :
    last_build_date [] ⟨2025, 10, 12, 9, 30, 0⟩ = none
    ∧ pyStrOfOpt (last_build_date [] ⟨2025, 10, 12, 9, 30, 0⟩) = "None"
    ∧ rssItems ([] : List BlogPost) = []
    ∧ find_blog_posts false [] = Except.ok [] :=
  c1_empty_feed_lastBuildDate ⟨2025, 10, 12, 9, 30, 0⟩ [] (by decide) (by decide)
    (by decide) (by decide) (by decide) (by decide)

lemma pyStrLt_irrefl (l : List Char) : pyStrLt l l = false := by
  induction l with
  | nil => rfl
  | cons a as ih => simp [pyStrLt, ih]

lemma pyStrLt_asymm {a b : List Char} (h : pyStrLt a b = true) : pyStrLt b a = false := by
  induction a generalizing b with
  | nil =>
    cases b with
    | nil => simp [pyStrLt] at h
    | cons x xs => simp [pyStrLt]
  | cons x xs ih =>
    cases b with
    | nil => simp [pyStrLt] at h
    | cons y ys =>
      simp only [pyStrLt] at h ⊢
      rcases lt_trichotomy x y with hxy | hxy | hxy
      · simp [hxy, not_lt_of_gt hxy]
      · subst hxy
        simp only [lt_irrefl, if_false] at h ⊢
        exact ih h
      · simp [hxy, not_lt_of_gt hxy] at h
  
lemma pyStrLt_trans {a b c : List Char} (hab : pyStrLt a b = true)
    (hbc : pyStrLt b c = true) : pyStrLt a c = true := by
  induction a generalizing b c with
  | nil =>
    cases c with
    | nil =>
      cases b with
      | nil => exact hab
      | cons y ys => simp [pyStrLt] at hbc
    | cons z zs => simp [pyStrLt]
  | cons x xs ih =>
    cases b with
    | nil => simp [pyStrLt] at hab
    | cons y ys =>
      cases c with
      | nil => simp [pyStrLt] at hbc
      | cons z zs =>
        simp only [pyStrLt] at hab hbc ⊢
        rcases lt_trichotomy x y with hxy | hxy | hxy
        · rcases lt_trichotomy y z with hyz | hyz | hyz
          · simp [lt_trans hxy hyz]
          · subst hyz
            simp [hxy]
          · simp [hyz, not_lt_of_gt hyz] at hbc
        · subst hxy
          rcases lt_trichotomy x z with hyz | hyz | hyz
          · simp [hyz]
          · subst hyz
            simp only [lt_irrefl, if_false] at hab hbc ⊢
            exact ih hab hbc
          · simp [hyz, not_lt_of_gt hyz] at hbc
        · simp [hxy, not_lt_of_gt hxy] at hab

lemma pyStrLt_connex {a b : List Char} (h1 : pyStrLt a b = false)
    (h2 : pyStrLt b a = false) : a = b := by
  induction a generalizing b with
  | nil =>
    cases b with
    | nil => rfl
    | cons y ys => simp [pyStrLt] at h1
  | cons x xs ih =>
    cases b with
    | nil => simp [pyStrLt] at h2
    | cons y ys =>
      simp only [pyStrLt] at h1 h2
      rcases lt_trichotomy x y with hxy | hxy | hxy
      · simp [hxy] at h1
      · subst hxy
        simp only [lt_irrefl, if_false] at h1 h2
        rw [ih h1 h2]
      · simp [hxy] at h2

lemma pyStrLe_refl (a : List Char) : pyStrLe a a = true := by
  simp [pyStrLe, pyStrLt_irrefl]

lemma pyStrLe_of_not_le {a b : List Char} (h : pyStrLe a b = false) :
    pyStrLe b a = true := by
  simp only [pyStrLe, Bool.not_eq_false'] at h
  simp [pyStrLe, pyStrLt_asymm h]

lemma pyStrLe_trans {a b c : List Char} (hab : pyStrLe a b = true)
    (hbc : pyStrLe b c = true) : pyStrLe a c = true := by
  simp only [pyStrLe, Bool.not_eq_true'] at hab hbc ⊢
  by_contra hca
  rw [Bool.not_eq_false] at hca
  cases hbc2 : pyStrLt b c with
  | false =>
    cases hcb2 : pyStrLt c b with
    | false =>
      rw [pyStrLt_connex hbc2 hcb2] at hab
      rw [hca] at hab
      exact absurd hab (by simp)
    | true => rw [hcb2] at hbc; exact absurd hbc (by simp)
  | true =>
    have := pyStrLt_trans hbc2 hca
    rw [this] at hab
    exact absurd hab (by simp)

lemma pyStrLe_nil {a : List Char} (h : pyStrLe a [] = true) : a = [] := by
  cases a with
  | nil => rfl
  | cons x xs => simp [pyStrLe, pyStrLt] at h

lemma insertPost_perm (p : BlogPost) (l : List BlogPost) :
    List.Perm (insertPost p l) (p :: l) := by
  induction l with
  | nil => exact List.Perm.refl _
  | cons q qs ih =>
    simp only [insertPost]
    by_cases hc : pyStrLe (keyL q) (keyL p) = true
    · rw [if_pos hc]
    · rw [if_neg hc]
      exact (List.Perm.cons q ih).trans (List.Perm.swap p q qs)

lemma sortPosts_perm (l : List BlogPost) : List.Perm (sortPosts l) l := by
  induction l with
  | nil => exact List.Perm.refl _
  | cons p ps ih =>
    exact (insertPost_perm p (sortPosts ps)).trans (List.Perm.cons p ih)

lemma mem_insertPost {x p : BlogPost} {l : List BlogPost}
    (h : x ∈ insertPost p l) : x = p ∨ x ∈ l := by
  have h2 := (insertPost_perm p l).mem_iff.mp h
  simpa using h2

lemma insertPost_pairwise {p : BlogPost} {l : List BlogPost}
    (h : l.Pairwise descKey) : (insertPost p l).Pairwise descKey := by
  induction l with
  | nil => simp [insertPost, descKey]
  | cons q qs ih =>
    rcases List.pairwise_cons.mp h with ⟨hq, hqs⟩
    simp only [insertPost]
    by_cases hc : pyStrLe (keyL q) (keyL p) = true
    · rw [if_pos hc]
      refine List.pairwise_cons.mpr ⟨?_, h⟩
      intro r hr
      rcases List.mem_cons.mp hr with hr | hr
      · subst hr
        exact hc
      · exact pyStrLe_trans (hq r hr) hc
    · rw [if_neg hc]
      refine List.pairwise_cons.mpr ⟨?_, ih hqs⟩
      intro r hr
      rcases mem_insertPost hr with hr | hr
      · subst hr
        exact pyStrLe_of_not_le (Bool.not_eq_true _ ▸ hc)
      · exact hq r hr

lemma sortPosts_pairwise (l : List BlogPost) : (sortPosts l).Pairwise descKey := by
  induction l with
  | nil => simp [sortPosts]
  | cons p ps ih => exact insertPost_pairwise ih

lemma filter_insertPost (p : BlogPost) (l : List BlogPost) (k : List Char) :
    (insertPost p l).filter (fun q => keyL q == k)
      = if keyL p = k then p :: l.filter (fun q => keyL q == k)
        else l.filter (fun q => keyL q == k) := by
  induction l with
  | nil =>
    by_cases hp : keyL p = k
    · simp [insertPost, List.filter_cons, hp]
    · simp [insertPost, List.filter_cons, hp]
  | cons q qs ih =>
    simp only [insertPost]
    by_cases hc : pyStrLe (keyL q) (keyL p) = true
    · rw [if_pos hc]
      by_cases hp : keyL p = k
      · simp [List.filter_cons, hp]
      · simp [List.filter_cons, hp]
    · rw [if_neg hc]
      by_cases hq : keyL q = k
      · by_cases hp : keyL p = k
        · exfalso
          rw [hq, hp] at hc
          exact hc (pyStrLe_refl k)
        · simp [List.filter_cons, hq, hp, ih]
      · by_cases hp : keyL p = k
        · simp [List.filter_cons, hq, hp, ih]
        · simp [List.filter_cons, hq, hp, ih]

lemma filter_sortPosts (l : List BlogPost) (k : List Char) :
    (sortPosts l).filter (fun q => keyL q == k) = l.filter (fun q => keyL q == k) := by
  induction l with
  | nil => rfl
  | cons p ps ih =>
    show (insertPost p (sortPosts ps)).filter _ = _
    rw [filter_insertPost]
    by_cases hp : keyL p = k
    · simp [List.filter_cons, hp, ih]
    · simp [List.filter_cons, hp, ih]

lemma collectPosts_ok {entries : List FsEntry} {posts : List BlogPost}
    (h : collectPosts entries = Except.ok posts) :
    posts = entries.map fun e => mkPost e (gitInterp e.gitRun) := by
  induction entries generalizing posts with
  | nil =>
    simp only [collectPosts] at h
    cases h
    rfl
  | cons e es ih =>
    simp only [collectPosts] at h
    cases hg : get_git_date e.gitRun with
    | error msg =>
      rw [show toPost e = Except.error msg by simp [toPost, hg, Except.map]] at h
      cases h
    | ok d =>
      rw [show toPost e = Except.ok (mkPost e d) by simp [toPost, hg, Except.map]] at h
      cases hc : collectPosts es with
      | error msg =>
        rw [hc] at h
        cases h
      | ok ps =>
        rw [hc] at h
        cases h
        have hgi : gitInterp e.gitRun = d := by simp [gitInterp, hg]
        simp [List.map_cons, hgi, ih hc]

lemma gitInterp_some_ne_empty {r : RunResult} {d : String}
    (h : gitInterp r = some d) : d.data ≠ [] := by
  cases r with
  | ok out =>
    simp only [gitInterp, get_git_date] at h
    cases hs : pySplit (pyStripL out.data) '\n' with
    | nil =>
      rw [hs] at h
      cases h
    | cons a t =>
      rw [hs] at h
      by_cases ha : a = []
      · simp [ha] at h
      · simp only [ha, if_neg, if_false] at h
        have : String.mk a = d := by
          by_contra hne
          simp [ha, hne] at h
        rw [← this]
        exact ha
  | calledProcessError => simp [gitInterp, get_git_date] at h
  | fileNotFound => simp [gitInterp, get_git_date] at h

lemma find_blog_posts_ok {entries : List FsEntry} {l : List BlogPost}
    (h : find_blog_posts true entries = Except.ok l) :
    l = sortPosts (entries.map fun e => mkPost e (gitInterp e.gitRun)) := by
  simp only [find_blog_posts, if_true] at h
  cases hc : collectPosts entries with
  | error msg =>
    rw [hc] at h
    cases h
  | ok ps =>
    rw [hc] at h
    simp only [Except.map] at h
    cases h
    rw [collectPosts_ok hc]

/-- C4: a collected record with an absent date is skipped by the
renderer (it yields no item), yet it sits in the raw collection the
collector returns, whose size — recomputed the same way by the driver
for its summary — counts every traversed file including this one. -/
theorem c4_dateless_skipped (entries : List FsEntry) (l : List BlogPost) (e : FsEntry)
    (h : find_blog_posts true entries = Except.ok l) (he : e ∈ entries)
    (hd : gitInterp e.gitRun = none) :
    mkPost e none ∈ l ∧ itemOf (mkPost e none) = none ∧ l.length = entries.length := by
  have hl := find_blog_posts_ok h
  subst hl
  refine ⟨?_, rfl, ?_⟩
  · apply (sortPosts_perm _).mem_iff.mpr
    have hm := List.mem_map_of_mem (fun e => mkPost e (gitInterp e.gitRun)) he
    simp only [hd] at hm
    exact hm
  · rw [(sortPosts_perm _).length_eq]
    simp

theorem c4_dateless_skipped_witness :
    mkPost ⟨"blogs/w.md", "w", some "Word up\n", RunResult.calledProcessError⟩ none
        ∈ [mkPost ⟨"blogs/w.md", "w", some "Word up\n", RunResult.calledProcessError⟩ none]
    ∧ itemOf (mkPost ⟨"blogs/w.md", "w", some "Word up\n", RunResult.calledProcessError⟩ none)
        = none
    ∧ ([mkPost ⟨"blogs/w.md", "w", some "Word up\n", RunResult.calledProcessError⟩ none].length
        = [(⟨"blogs/w.md", "w", some "Word up\n", RunResult.calledProcessError⟩ : FsEntry)].length) :=
  c4_dateless_skipped
    [⟨"blogs/w.md", "w", some "Word up\n", RunResult.calledProcessError⟩]
    [mkPost ⟨"blogs/w.md", "w", some "Word up\n", RunResult.calledProcessError⟩ none]
    ⟨"blogs/w.md", "w", some "Word up\n", RunResult.calledProcessError⟩
    (by decide) (by decide) (by decide)

/-- C5: the collector output is sorted descending by the date key (an
absent date compares as the empty string), every dateless record follows
all dated ones, and the renderer preserves this order on the records it
keeps, so rendered items are non-increasing by date. -/
theorem c5_sorted_descending (entries : List FsEntry) (l : List BlogPost)
    (h : find_blog_posts true entries = Except.ok l) :
    l.Pairwise (fun a b => pyStrLe (keyL b) (keyL a) = true)
    ∧ l.Pairwise (fun a b => a.date = none → b.date = none)
    ∧ (l.filter fun p => (itemOf p).isSome).Pairwise
        (fun a b => pyStrLe (keyL b) (keyL a) = true) := by
  have hl := find_blog_posts_ok h
  subst hl
  have hpw := sortPosts_pairwise (entries.map fun e => mkPost e (gitInterp e.gitRun))
  have hdates : ∀ p ∈ sortPosts (entries.map fun e => mkPost e (gitInterp e.gitRun)),
      ∀ d, p.date = some d → d.data ≠ [] := by
    intro p hp d hpd
    have hp2 := (sortPosts_perm _).mem_iff.mp hp
    rcases List.mem_map.mp hp2 with ⟨e, _, rfl⟩
    exact gitInterp_some_ne_empty (r := e.gitRun) hpd
  refine ⟨hpw, ?_, ?_⟩
  · refine hpw.imp_of_mem ?_
    intro a b ha hb hr hnone
    simp only [descKey] at hr
    have hka : keyL a = [] := by simp [keyL, hnone]
    rw [hka] at hr
    have hkb : keyL b = [] := pyStrLe_nil hr
    cases hbd : b.date with
    | none => rfl
    | some d =>
      exfalso
      have : keyL b = d.data := by simp [keyL, hbd]
      exact hdates b hb d hbd (by rw [← this, hkb])
  · exact List.Pairwise.sublist (List.filter_sublist _) hpw

theorem c5_sorted_descending_witness :
    ([mkPost ⟨"blogs/a.md", "a", none, RunResult.ok "2025-01-02 10:00:00 +0000\n"⟩
        (some "2025-01-02 10:00:00 +0000"),
      mkPost ⟨"blogs/b.md", "b", none, RunResult.calledProcessError⟩ none].Pairwise
        (fun a b => pyStrLe (keyL b) (keyL a) = true))
    ∧ ([mkPost ⟨"blogs/a.md", "a", none, RunResult.ok "2025-01-02 10:00:00 +0000\n"⟩
        (some "2025-01-02 10:00:00 +0000"),
      mkPost ⟨"blogs/b.md", "b", none, RunResult.calledProcessError⟩ none].Pairwise
        (fun a b => a.date = none → b.date = none))
    ∧ (([mkPost ⟨"blogs/a.md", "a", none, RunResult.ok "2025-01-02 10:00:00 +0000\n"⟩
        (some "2025-01-02 10:00:00 +0000"),
      mkPost ⟨"blogs/b.md", "b", none, RunResult.calledProcessError⟩ none].filter
        fun p => (itemOf p).isSome).Pairwise
        (fun a b => pyStrLe (keyL b) (keyL a) = true)) :=
  c5_sorted_descending
    [⟨"blogs/b.md", "b", none, RunResult.calledProcessError⟩,
     ⟨"blogs/a.md", "a", none, RunResult.ok "2025-01-02 10:00:00 +0000\n"⟩]
    _ (by decide)

/-- C9: the sort is stable: for every key value, the records carrying
that key appear in the collector output in exactly their traversal
order, stated as equality of the key-filtered sorted output with the
key-filtered enumeration. -/
theorem c9_sort_stable (entries : List FsEntry) (l : List BlogPost) (k : List Char)
    (h : find_blog_posts true entries = Except.ok l) :
    l.filter (fun p => keyL p == k)
      = (entries.map fun e => mkPost e (gitInterp e.gitRun)).filter
          (fun p => keyL p == k) := by
  have hl := find_blog_posts_ok h
  subst hl
  exact filter_sortPosts _ k

theorem c9_sort_stable_witness :
    ([mkPost ⟨"blogs/a.md", "a", none, RunResult.calledProcessError⟩ none,
      mkPost ⟨"blogs/b.md", "b", none, RunResult.calledProcessError⟩ none].filter
        (fun p => keyL p == []))
      = (([⟨"blogs/a.md", "a", none, RunResult.calledProcessError⟩,
           ⟨"blogs/b.md", "b", none, RunResult.calledProcessError⟩] :
            List FsEntry).map fun e => mkPost e (gitInterp e.gitRun)).filter
          (fun p => keyL p == []) :=
  c9_sort_stable
    [⟨"blogs/a.md", "a", none, RunResult.calledProcessError⟩,
     ⟨"blogs/b.md", "b", none, RunResult.calledProcessError⟩]
    [mkPost ⟨"blogs/a.md", "a", none, RunResult.calledProcessError⟩ none,
     mkPost ⟨"blogs/b.md", "b", none, RunResult.calledProcessError⟩ none]
    [] (by decide)

lemma pyReplace_nil (p : Char) (ps rep : List Char) : pyReplace p ps rep [] = [] := by
  simp [pyReplace]

lemma pyReplace_cons_neg {p : Char} {ps : List Char} (rep : List Char) {c : Char}
    {cs : List Char} (h : isPre (p :: ps) (c :: cs) = false) :
    pyReplace p ps rep (c :: cs) = c :: pyReplace p ps rep cs := by
  rw [pyReplace]
  simp [h]

lemma pyReplace_cons_pos {p : Char} {ps : List Char} (rep : List Char) {c : Char}
    {cs : List Char} (h : isPre (p :: ps) (c :: cs) = true) :
    pyReplace p ps rep (c :: cs) = rep ++ pyReplace p ps rep (cs.drop ps.length) := by
  rw [pyReplace]
  simp [h]

lemma pyReplace_skip {ps : List Char} (rep : List Char) {u : List Char} (l : List Char)
    (hu : ∀ c ∈ u, c ≠ '&') :
    pyReplace '&' ps rep (u ++ l) = u ++ pyReplace '&' ps rep l := by
  induction u with
  | nil => simp
  | cons c cu ih =>
    have hc : c ≠ '&' := hu c (List.mem_cons_self c cu)
    have hb : ('&' == c) = false := beq_eq_false_iff_ne.mpr (Ne.symm hc)
    rw [List.cons_append, pyReplace_cons_neg rep (by simp [isPre, hb])]
    rw [ih fun d hd => hu d (List.mem_cons_of_mem c hd)]
    simp

lemma escapeL_eq_mapBlocks (l : List Char) : escapeL l = mapBlocks escape1 l := by
  induction l with
  | nil => rfl
  | cons c cs ih => simp [escapeL, mapBlocks, ih]

lemma unescape_stage1 (l : List Char) :
    pyReplace '&' ['l', 't', ';'] ['<'] (mapBlocks escape1 l) = mapBlocks unesc1Blk l := by
  induction l with
  | nil => simp [mapBlocks, pyReplace_nil]
  | cons c cs ih =>
    simp only [mapBlocks]
    by_cases h1 : c = '&'
    · subst h1
      show pyReplace _ _ _ ('&' :: ('a' :: 'm' :: 'p' :: ';' :: mapBlocks escape1 cs)) = _
      rw [pyReplace_cons_neg _ (by simp [isPre])]
      rw [show ('a' :: 'm' :: 'p' :: ';' :: mapBlocks escape1 cs)
            = ['a', 'm', 'p', ';'] ++ mapBlocks escape1 cs from rfl]
      rw [pyReplace_skip _ _ (by decide), ih]
      simp [unesc1Blk]
    · by_cases h2 : c = '>'
      · subst h2
        show pyReplace _ _ _ ('&' :: ('g' :: 't' :: ';' :: mapBlocks escape1 cs)) = _
        rw [pyReplace_cons_neg _ (by simp [isPre])]
        rw [show ('g' :: 't' :: ';' :: mapBlocks escape1 cs)
              = ['g', 't', ';'] ++ mapBlocks escape1 cs from rfl]
        rw [pyReplace_skip _ _ (by decide), ih]
        simp [unesc1Blk]
      · by_cases h3 : c = '<'
        · subst h3
          show pyReplace _ _ _ ('&' :: ('l' :: 't' :: ';' :: mapBlocks escape1 cs)) = _
          rw [pyReplace_cons_pos _ (by simp [isPre])]
          simp [List.drop, ih, unesc1Blk]
        · have hb : ('&' == c) = false := beq_eq_false_iff_ne.mpr (Ne.symm h1)
          rw [show escape1 c = [c] by simp [escape1, h1, h2, h3]]
          rw [List.cons_append, List.nil_append]
          rw [pyReplace_cons_neg _ (by simp [isPre, hb]), ih]
          simp [unesc1Blk, h1, h2, h3]

lemma unescape_stage2 (l : List Char) :
    pyReplace '&' ['g', 't', ';'] ['>'] (mapBlocks unesc1Blk l) = mapBlocks unesc2Blk l := by
  induction l with
  | nil => simp [mapBlocks, pyReplace_nil]
  | cons c cs ih =>
    simp only [mapBlocks]
    by_cases h1 : c = '&'
    · subst h1
      show pyReplace _ _ _ ('&' :: ('a' :: 'm' :: 'p' :: ';' :: mapBlocks unesc1Blk cs)) = _
      rw [pyReplace_cons_neg _ (by simp [isPre])]
      rw [show ('a' :: 'm' :: 'p' :: ';' :: mapBlocks unesc1Blk cs)
            = ['a', 'm', 'p', ';'] ++ mapBlocks unesc1Blk cs from rfl]
      rw [pyReplace_skip _ _ (by decide), ih]
      simp [unesc1Blk, unesc2Blk]
    · by_cases h2 : c = '>'
      · subst h2
        show pyReplace _ _ _ ('&' :: ('g' :: 't' :: ';' :: mapBlocks unesc1Blk cs)) = _
        rw [pyReplace_cons_pos _ (by simp [isPre])]
        simp [List.drop, ih, unesc1Blk, unesc2Blk]
      · by_cases h3 : c = '<'
        · subst h3
          show pyReplace _ _ _ ('<' :: mapBlocks unesc1Blk cs) = _
          rw [pyReplace_cons_neg _ (by simp [isPre]), ih]
          simp [unesc1Blk, unesc2Blk]
        · have hb : ('&' == c) = false := beq_eq_false_iff_ne.mpr (Ne.symm h1)
          rw [show unesc1Blk c = [c] by simp [unesc1Blk, h1, h2, h3]]
          rw [List.cons_append, List.nil_append]
          rw [pyReplace_cons_neg _ (by simp [isPre, hb]), ih]
          simp [unesc2Blk, h1, h2, h3]

lemma unescape_stage3 (l : List Char) :
    pyReplace '&' ['a', 'm', 'p', ';'] ['&'] (mapBlocks unesc2Blk l) = l := by
  induction l with
  | nil => simp [mapBlocks, pyReplace_nil]
  | cons c cs ih =>
    simp only [mapBlocks]
    by_cases h1 : c = '&'
    · subst h1
      show pyReplace _ _ _ ('&' :: ('a' :: 'm' :: 'p' :: ';' :: mapBlocks unesc2Blk cs)) = _
      rw [pyReplace_cons_pos _ (by simp [isPre])]
      simp [List.drop, ih]
    · by_cases h2 : c = '>'
      · subst h2
        show pyReplace _ _ _ ('>' :: mapBlocks unesc2Blk cs) = _
        rw [pyReplace_cons_neg _ (by simp [isPre]), ih]
      · by_cases h3 : c = '<'
        · subst h3
          show pyReplace _ _ _ ('<' :: mapBlocks unesc2Blk cs) = _
          rw [pyReplace_cons_neg _ (by simp [isPre]), ih]
        · have hb : ('&' == c) = false := beq_eq_false_iff_ne.mpr (Ne.symm h1)
          rw [show unesc2Blk c = [c] by simp [unesc2Blk, h1, h2, h3]]
          rw [List.cons_append, List.nil_append]
          rw [pyReplace_cons_neg _ (by simp [isPre, hb]), ih]

lemma escapeL_no_angle {l : List Char} {c : Char} (h : c ∈ escapeL l) :
    c ≠ '<' ∧ c ≠ '>' := by
  induction l with
  | nil => simp [escapeL] at h
  | cons a as ih =>
    simp only [escapeL] at h
    rcases List.mem_append.mp h with h | h
    · by_cases h1 : a = '&'
      · rw [h1] at h
        simp [escape1] at h
        rcases h with h | h | h | h | h <;> subst h <;> exact ⟨by decide, by decide⟩
      · by_cases h2 : a = '>'
        · rw [h2] at h
          simp [escape1] at h
          rcases h with h | h | h | h <;> subst h <;> exact ⟨by decide, by decide⟩
        · by_cases h3 : a = '<'
          · rw [h3] at h
            simp [escape1] at h
            rcases h with h | h | h | h <;> subst h <;> exact ⟨by decide, by decide⟩
          · rw [show escape1 a = [a] by simp [escape1, h1, h2, h3]] at h
            simp at h
            subst h
            exact ⟨h3, h2⟩
    · exact ih h

/-- C6: escaping replaces the ampersand and both angle brackets, so the
escaped text carries no raw angle bracket (the document structure cannot
be broken by inserted text), and the standard unescape of the escaped
text restores the original string exactly. -/
theorem c6_escape_roundtrip (s : String) :
    unescapeS (escapeS s) = s
    ∧ ∀ c ∈ (escapeS s).data, c ≠ '<' ∧ c ≠ '>' := by
  constructor
  · show String.mk (pyReplace '&' ['a', 'm', 'p', ';'] ['&']
      (pyReplace '&' ['g', 't', ';'] ['>']
        (pyReplace '&' ['l', 't', ';'] ['<'] (escapeL s.data)))) = s
    rw [escapeL_eq_mapBlocks, unescape_stage1, unescape_stage2, unescape_stage3]
  · intro c hc
    exact escapeL_no_angle hc

theorem c6_escape_roundtrip_witness :
    unescapeS (escapeS "a<b>&c") = "a<b>&c"
    ∧ ('&' ∈ (escapeS "a<b>&c").data)
    ∧ ('&' ≠ '<' ∧ '&' ≠ '>') :=
  ⟨(c6_escape_roundtrip "a<b>&c").1, by decide,
   (c6_escape_roundtrip "a<b>&c").2 '&' (by decide)⟩

lemma escapeL_filter_quotes (l : List Char) :
    (escapeL l).filter (fun d => d == '"' || d == '\x27')
      = l.filter (fun d => d == '"' || d == '\x27') := by
  induction l with
  | nil => rfl
  | cons a as ih =>
    have hblk : (escape1 a).filter (fun d => d == '"' || d == '\x27')
        = [a].filter (fun d => d == '"' || d == '\x27') := by
      by_cases h1 : a = '&'
      · subst h1
        decide
      · by_cases h2 : a = '>'
        · subst h2
          decide
        · by_cases h3 : a = '<'
          · subst h3
            decide
          · rw [show escape1 a = [a] by simp [escape1, h1, h2, h3]]
    simp only [escapeL, List.filter_append, hblk, ih]
    rw [← List.filter_append]
    rfl

/-- C10: quote characters are not escaped in element text: escaping
leaves every character other than the ampersand and the angle brackets
unchanged, and in particular the double and single quotes of a title or
description survive verbatim, in order and number. -/
theorem c10_quotes_verbatim (t : String) (c : Char)
    (h1 : c ≠ '&') (h2 : c ≠ '<') (h3 : c ≠ '>') :
    escape1 c = [c]
    ∧ (escapeS t).data.filter (fun d => d == '"' || d == '\x27')
        = t.data.filter (fun d => d == '"' || d == '\x27') := by
  refine ⟨by simp [escape1, h1, h2, h3], ?_⟩
  show (escapeL t.data).filter _ = _
  exact escapeL_filter_quotes t.data

theorem c10_quotes_verbatim_witness :
    ('"' ≠ '&' ∧ '"' ≠ '<' ∧ '"' ≠ '>')
    ∧ escape1 '"' = ['"']
    ∧ (escapeS "say \"hi\" & <b> don\x27t").data.filter (fun d => d == '"' || d == '\x27')
        = "say \"hi\" & <b> don\x27t".data.filter (fun d => d == '"' || d == '\x27') :=
  ⟨⟨by decide, by decide, by decide⟩,
   (c10_quotes_verbatim "say \"hi\" & <b> don\x27t" '"' (by decide) (by decide) (by decide)).1,
   (c10_quotes_verbatim "say \"hi\" & <b> don\x27t" '"' (by decide) (by decide) (by decide)).2⟩

lemma isPre_iff_take {p l : List Char} : isPre p l = true ↔ l.take p.length = p := by
  induction p generalizing l with
  | nil => simp [isPre]
  | cons a as ih =>
    cases l with
    | nil => simp [isPre]
    | cons b bs =>
      simp only [isPre, List.length_cons, List.take_succ_cons, Bool.and_eq_true, beq_iff_eq]
      constructor
      · rintro ⟨rfl, h⟩
        rw [ih.mp h]
      · intro h
        injection h with h1 h2
        exact ⟨h1.symm, ih.mpr h2⟩

lemma isPre_append_self (p t : List Char) : isPre p (p ++ t) = true := by
  induction p with
  | nil => rfl
  | cons a as ih => simp [isPre, ih]

lemma isPre_shift {c : Char} {u rest : List Char}
    (h : isPre goalLit ((c :: u) ++ (goalLit ++ rest)) = true) :
    isPre goalLit ((c :: u) ++ goalLit.take 8) = true := by
  rw [isPre_iff_take] at h ⊢
  have hlen : goalLit.length = 9 := by decide
  rw [hlen] at h ⊢
  rw [List.take_append_eq_append_take] at h ⊢
  have hm8 : 9 - (c :: u).length ≤ 8 := by
    simp only [List.length_cons]
    omega
  have h1 : (goalLit ++ rest).take (9 - (c :: u).length)
      = goalLit.take (9 - (c :: u).length) := by
    rw [List.take_append_eq_append_take]
    have hz : 9 - (c :: u).length - goalLit.length = 0 := by
      rw [hlen]
      omega
    rw [hz, List.take_zero, List.append_nil]
  have h2 : (goalLit.take 8).take (9 - (c :: u).length)
      = goalLit.take (9 - (c :: u).length) := by
    rw [List.take_take, Nat.min_eq_left hm8]
  rw [h2, ← h1, h]

lemma findGoal_append (u rest : List Char)
    (h : occursIn goalLit (u ++ goalLit.take 8) = false) :
    findGoal (u ++ (goalLit ++ rest)) = goalMatchAt rest := by
  induction u with
  | nil =>
    rw [List.nil_append]
    rw [show goalLit ++ rest
          = '*' :: (['*', 'G', 'o', 'a', 'l', ':', '*', '*'] ++ rest) from rfl]
    simp only [findGoal]
    rw [show isPre goalLit ('*' :: (['*', 'G', 'o', 'a', 'l', ':', '*', '*'] ++ rest))
          = true from isPre_append_self goalLit rest]
    simp [List.drop]
  | cons c cu ih =>
    rw [List.cons_append] at h
    simp only [occursIn, Bool.or_eq_false_iff] at h
    have hpre : isPre goalLit (c :: (cu ++ (goalLit ++ rest))) = false := by
      by_contra hyp
      rw [Bool.not_eq_false] at hyp
      have h2 := isPre_shift (u := cu) (by rw [List.cons_append]; exact hyp)
      rw [List.cons_append] at h2
      rw [h2] at h
      exact absurd h.1 (by simp)
    rw [List.cons_append]
    simp only [findGoal, hpre, Bool.false_eq_true, if_false]
    exact ih h.2

lemma dropWhile_dropWhile (p : Char → Bool) (l : List Char) :
    (l.dropWhile p).dropWhile p = l.dropWhile p := by
  induction l with
  | nil => rfl
  | cons a as ih =>
    by_cases h : p a = true
    · simp [List.dropWhile_cons, h, ih]
    · simp [List.dropWhile_cons, h]

lemma pyStripL_dropWhile (l : List Char) :
    pyStripL (l.dropWhile pyIsSpace) = pyStripL l := by
  simp [pyStripL, dropWhile_dropWhile]

lemma takeWhile_append_all {p : Char → Bool} {u : List Char} (v : List Char)
    (hu : ∀ c ∈ u, p c = true) :
    (u ++ v).takeWhile p = u ++ v.takeWhile p := by
  induction u with
  | nil => rfl
  | cons a au ih =>
    have ha := hu a (List.mem_cons_self a au)
    simp [List.takeWhile_cons, ha, ih fun c hc => hu c (List.mem_cons_of_mem a hc)]

lemma dropWhile_append_ne {p : Char → Bool} {u : List Char} (v : List Char)
    (hne : u.dropWhile p ≠ []) :
    (u ++ v).dropWhile p = u.dropWhile p ++ v := by
  induction u with
  | nil => simp at hne
  | cons a au ih =>
    by_cases h : p a = true
    · rw [List.dropWhile_cons, if_pos h] at hne
      rw [List.cons_append, List.dropWhile_cons, if_pos h, List.dropWhile_cons, if_pos h]
      exact ih hne
    · rw [List.cons_append, List.dropWhile_cons, if_neg h, List.dropWhile_cons, if_neg h]
      simp

lemma dropWhile_head_false {p : Char → Bool} {l ds : List Char} {d : Char}
    (h : l.dropWhile p = d :: ds) : p d = false := by
  induction l with
  | nil => cases h
  | cons a as ih =>
    by_cases ha : p a = true
    · rw [List.dropWhile_cons, if_pos ha] at h
      exact ih h
    · rw [List.dropWhile_cons, if_neg ha] at h
      injection h with h1 _
      rw [← h1]
      exact Bool.not_eq_true _ |>.mp ha

lemma pyStripL_ne_nil {x : List Char} (hxne : x.dropWhile pyIsSpace ≠ []) :
    pyStripL x ≠ [] := by
  obtain ⟨d, ds, hds⟩ : ∃ d ds, x.dropWhile pyIsSpace = d :: ds := by
    cases hcase : x.dropWhile pyIsSpace with
    | nil => exact absurd hcase hxne
    | cons d ds => exact ⟨d, ds, rfl⟩
  have hdws : pyIsSpace d = false := dropWhile_head_false hds
  unfold pyStripL
  rw [hds]
  simp only [ne_eq, List.reverse_eq_nil_iff, List.dropWhile_eq_nil_iff]
  intro hall
  have := hall d (by simp)
  rw [hdws] at this
  cases this

lemma goalMatchAt_inline {x suffix : List Char} (hx : ∀ c ∈ x, c ≠ '\n')
    (hxne : x.dropWhile pyIsSpace ≠ []) :
    goalMatchAt (' ' :: (x ++ ('\n' :: suffix))) = some (pyStripL x) := by
  obtain ⟨d, ds, hds⟩ : ∃ d ds, x.dropWhile pyIsSpace = d :: ds := by
    cases hcase : x.dropWhile pyIsSpace with
    | nil => exact absurd hcase hxne
    | cons d ds => exact ⟨d, ds, rfl⟩
  have hdrop : (' ' :: (x ++ ('\n' :: suffix))).dropWhile pyIsSpace
      = (d :: ds) ++ ('\n' :: suffix) := by
    rw [List.dropWhile_cons, if_pos (by decide), dropWhile_append_ne _ hxne, hds]
  have htake : ((d :: ds) ++ ('\n' :: suffix)).takeWhile (fun c => c != '\n')
      = d :: ds := by
    rw [takeWhile_append_all ('\n' :: suffix) ?hall]
    · simp [List.takeWhile_cons]
    case hall =>
      intro c hc
      have hcx : c ∈ x := List.dropWhile_subset _ (hds ▸ hc)
      simp [hx c hcx]
  unfold goalMatchAt
  rw [hdrop]
  simp only [List.cons_append]
  rw [show ((d :: (ds ++ '\n' :: suffix)).takeWhile fun c => c != '\n') = d :: ds by
    rw [← List.cons_append]
    exact htake]
  rw [show (d :: ds) = x.dropWhile pyIsSpace from hds.symm, pyStripL_dropWhile]

/-- C7: when the goal label is present — the content splits as a prefix
without an occurrence of the label, the label, one blank, a non-blank
capture without line breaks, then a line end and arbitrary remaining
text — the extracted description is exactly the capture stripped,
regardless of any qualifying paragraph in the prefix or the remainder. -/
theorem c7_goal_priority (pre x suffix : List Char) (stem : String)
    (hfirst : occursIn goalLit (pre ++ goalLit.take 8) = false)
    (hx : ∀ c ∈ x, c ≠ '\n')
    (hxne : x.dropWhile pyIsSpace ≠ []) :
    (extract_title_and_description
        (some (String.mk (pre ++ (goalLit ++ (' ' :: (x ++ ('\n' :: suffix))))))) stem).2
      = String.mk (pyStripL x) := by
  have hg : findGoal (pre ++ (goalLit ++ (' ' :: (x ++ ('\n' :: suffix)))))
      = some (pyStripL x) := by
    rw [findGoal_append pre _ hfirst]
    exact goalMatchAt_inline hx hxne
  show descriptionOf (pre ++ (goalLit ++ (' ' :: (x ++ ('\n' :: suffix))))) _ _
      = String.mk (pyStripL x)
  unfold descriptionOf
  rw [hg]
  simp [pyStripL_ne_nil hxne]

theorem c7_goal_priority_witness :
    (extract_title_and_description
        (some (String.mk ("Intro paragraph\n".data ++ (goalLit ++
          (' ' :: ("Learn things.".data ++ ('\n' :: "Align to stars\n".data))))))) "a").2
      = String.mk (pyStripL "Learn things.".data) :=
  c7_goal_priority "Intro paragraph\n".data "Learn things.".data
    "Align to stars\n".data "a" (by decide) (by decide) (by decide)
